import Mathlib

/-!
# gin-keycloak: bearer-token validation and client-credentials token cache

A shallow embedding of `auth.go` and `getter.go`.

* Go strings are byte sequences (`GoString`); `len`, slicing, `strings.Split`
  and `strings.Contains` all work on bytes.
* A Go pointer that may be `nil` is an `Option`.
* A Go `error` is observed through its `Error()` message; `nil` is `none`.
* The outside world is passed in explicitly: the answer of the HTTP `Post`
  (a transport error or a response body), `json.Unmarshal` for the target
  struct, the header lookup of the request context, and the readings of
  `time.Now()`.
* Every side effect (a log call, an HTTP request, a call on the request
  context) is recorded, in program order, in a list of `Event`s returned next
  to the Go return values.
-/

namespace Ginkeycloak

/-! ## Strings -/

/-- A Go `string`: an immutable sequence of bytes. -/
abbrev GoString := List UInt8

/-- The bytes of an ASCII literal (for ASCII text this is its UTF-8 encoding). -/
def ascii (s : String) : GoString := s.toList.map (fun c => UInt8.ofNat c.toNat)

/-- The byte of the one-character separator `" "` used by `getRawToken`. -/
def space : UInt8 := 32

/-- Go `strings.Split(s, sep)` for a one-byte separator `sep`: the pieces of `s`
between consecutive occurrences of `sep`; `n` occurrences give `n + 1` pieces, and
the empty string gives the single piece `""`. -/
def strings.Split (s : GoString) (sep : UInt8) : List GoString :=
  match s with
  | [] => [[]]
  | c :: cs =>
    if c = sep then [] :: strings.Split cs sep
    else
      match strings.Split cs sep with
      | [] => [[c]]
      | p :: ps => (c :: p) :: ps

/-- Go `strings.Contains(s, substr)`: `substr` starts at some byte offset of `s`. -/
def strings.Contains (s substr : GoString) : Bool :=
  match s with
  | [] => substr.isPrefixOf []
  | c :: cs => substr.isPrefixOf (c :: cs) || strings.Contains cs substr

/-! ## Errors, time, 64-bit integers -/

/-- A non-nil Go `error`, observed through `Error()`. -/
structure GoError where
  msg : GoString
deriving DecidableEq, Repr

/-- Go `errors.New`. -/
def errors.New (text : GoString) : GoError := ⟨text⟩

/-- The value range of Go `int64`. -/
def isInt64 (n : Int) : Prop := -(2 : Int) ^ 63 ≤ n ∧ n < (2 : Int) ^ 63

/-- Two-complement wrap-around of a mathematical integer into `int64`. -/
def wrapInt64 (x : Int) : Int := (x + (2 : Int) ^ 63) % (2 : Int) ^ 64 - (2 : Int) ^ 63

/-- Go `time.Duration`: an `int64` count of nanoseconds. -/
abbrev Duration := Int

/-- Go `time.Second`. -/
def time.Second : Duration := 1000000000

/-- Go `time.Duration(n)` for an `int64` value `n`: a conversion between two
64-bit integer types, which keeps the value. -/
def time.Duration (n : Int) : Duration := n

/-- Multiplication of two `time.Duration` values: `int64` multiplication, which
wraps around on overflow. -/
def Duration.mul (a b : Duration) : Duration := wrapInt64 (a * b)

/-- Go `time.Time`, as an instant in nanoseconds on the clock that `time.Now`
reads. The standard library's own range limits are not modelled: instants are
unbounded. -/
abbrev Time := Int

/-- Go `t.After(u)`: `t` is strictly later than `u`. -/
def Time.After (t u : Time) : Bool := decide (u < t)

/-- Go `t.Add(d)`. -/
def Time.Add (t : Time) (d : Duration) : Time := t + d

/-! ## Collaborators and effects -/

/-- Go `url.URL`, with the three fields the code sets. -/
structure URL where
  Scheme : GoString
  Host : GoString
  Path : GoString
deriving DecidableEq, Repr

/-- The address handed to `Post`: `urlVar.String()` of a built URL (kept as the
record it is printed from), or a string taken as it is. -/
inductive Target where
  | built (u : URL)
  | raw (s : GoString)
deriving DecidableEq, Repr

/-- A resty request as configured by the code before `Post`. -/
structure Request where
  basicAuth : Option (GoString × GoString)
  header : List (GoString × GoString)
  body : GoString
  formData : List (GoString × GoString)
  url : Target
deriving DecidableEq, Repr

/-- The handle returned by `resty.New()`. What a `Post` through it answers is
given to the operations as a function of the request. -/
structure RestyClient where
deriving DecidableEq, Repr

/-- Go `resty.New()`. -/
def resty.New : RestyClient := {}

/-- ClientDetails are the minimum, necessary client details we need from the token. -/
structure ClientDetails where
  Active : Bool
  Scope : GoString
  ClientID : GoString
deriving DecidableEq, Repr

/-- Token is the token structure returned by the Keycloak server; the numeric
fields are `int64`. -/
structure Token where
  AccessToken : GoString
  ExpiresInSeconds : Int
  RefreshExpiresIn : Int
  TokenType : GoString
  NotBeforePolicy : Int
  Scope : GoString
deriving DecidableEq, Repr

/-- TokenContainer encapsulates the original Keycloak token and the expiration
time computed from it. -/
structure TokenContainer where
  KeycloakToken : Option Token
  ExpiresAt : Time
deriving DecidableEq, Repr

/-- The value built by `gin.H` literals with one key, and the strings in them. -/
inductive JSONValue where
  | str (s : GoString)
  | H (key : GoString) (value : JSONValue)
deriving DecidableEq, Repr

/-- The logger a call goes to: the `AuthLogger` held by the receiver (`a.log`,
`g.log`) or the package-level logrus logger (`log.Tracef` in `getter.go`). -/
inductive Sink where
  | receiver
  | logrus
deriving DecidableEq, Repr

/-- The methods of `AuthLogger`. -/
inductive LogMethod where
  | Errorf
  | Tracef
  | Error
deriving DecidableEq, Repr

/-- A value passed to a logger. -/
inductive LogArg where
  | parts (ps : List GoString)
  | str (s : GoString)
  | url (u : URL)
  | err (e : GoError)
  | token (t : Token)
  | time (t : Time)
deriving DecidableEq, Repr

/-- One call on a logger: the format literal (empty for `Error`, and for the
`Tracef` whose format is the printed URL, which is then the argument) and the
arguments. -/
structure LogCall where
  sink : Sink
  method : LogMethod
  format : String
  args : List LogArg
deriving DecidableEq, Repr

/-- One observable side effect. -/
inductive Event where
  | log (c : LogCall)
  | post (r : Request)
  | GetHeader (key : GoString)
  | AbortWithStatusJSON (code : Nat) (jsonObj : JSONValue)
  | Next
deriving DecidableEq, Repr

/-- The HTTP requests issued, in order. -/
def posts : List Event → List Request
  | [] => []
  | Event.post r :: es => r :: posts es
  | _ :: es => posts es

/-- The calls made on the request context, in order. -/
def contextCalls : List Event → List Event
  | [] => []
  | Event.GetHeader k :: es => Event.GetHeader k :: contextCalls es
  | Event.AbortWithStatusJSON c j :: es => Event.AbortWithStatusJSON c j :: contextCalls es
  | Event.Next :: es => Event.Next :: contextCalls es
  | _ :: es => contextCalls es

/-- The values handed to the loggers, in order. -/
def logArgs : List Event → List LogArg
  | [] => []
  | Event.log c :: es => c.args ++ logArgs es
  | _ :: es => logArgs es

/-- Go `http.StatusInternalServerError`. -/
def http.StatusInternalServerError : Nat := 500

/-- Go `http.StatusUnauthorized`. -/
def http.StatusUnauthorized : Nat := 401

/-! ## auth.go -/

/-- Auth is the struct to hold details for the client credentials grant; `L` is
the type of the logger value. -/
structure Auth (L : Type) where
  clientID : GoString
  clientSecret : GoString
  host : GoString
  port : GoString
  scheme : GoString
  scope : GoString
  log : L
  tokenIntrospectPath : GoString
  restyClient : RestyClient

/-- New creates an Auth instance with a client for verifying tokens. The result
is the pointer `a`, never nil. -/
def New {L : Type} (id secret host port scheme scope tokenIntrospectPath : GoString)
    (logger : L) : Option (Auth L) :=
  let rc := resty.New
  let a : Auth L := ⟨id, secret, host, port, scheme, scope, logger, tokenIntrospectPath, rc⟩
  let a := if a.scheme = [] then { a with scheme := ascii "https" } else a
  let a := if a.port = [] then { a with port := ascii "443" } else a
  some a

def tokenHeaderParts : Nat := 2

def errorAuthHeaderIncorrectOrInvalidString : GoString :=
  ascii "authorization header incorrect or invalid, wrong number of parts"

def unknownErrorString : GoString :=
  ascii "unknown error encountered while trying to validate token"

def errorAuthHeaderIncorrectOrInvalid : GoError :=
  errors.New errorAuthHeaderIncorrectOrInvalidString

def ginUnknownErrorReturn : JSONValue :=
  JSONValue.H (ascii "error") (JSONValue.str unknownErrorString)

/-- The Go function `getRawToken`: the returned pair `(string, error)` and the
log calls made. -/
def getRawToken {L : Type} (_a : Auth L) (authorizationHeader : GoString) :
    (GoString × Option GoError) × List Event :=
  let parts := strings.Split authorizationHeader space
  if parts.length ≠ tokenHeaderParts then
    (([], some errorAuthHeaderIncorrectOrInvalid),
      [Event.log ⟨Sink.receiver, LogMethod.Errorf,
        "Authorization header incorrect: parts = %+v", [LogArg.parts parts]⟩])
  else if parts.getD 0 [] ≠ ascii "Bearer" then
    (([], some errorAuthHeaderIncorrectOrInvalid),
      [Event.log ⟨Sink.receiver, LogMethod.Errorf,
        "Authorization header incorrect: parts = %+v", [LogArg.parts parts]⟩])
  else
    ((parts.getD 1 [], none), [])

/-- The request `VerifyTokenFromHeader` sends for a raw token. -/
def introspectRequest {L : Type} (a : Auth L) (token : GoString) : Request :=
  let realHost := a.host
  let realHost := if a.port ≠ [] then a.host ++ ascii ":" ++ a.port else realHost
  let urlVar : URL := { Scheme := a.scheme, Host := realHost, Path := a.tokenIntrospectPath }
  { basicAuth := some (a.clientID, a.clientSecret)
    header := [(ascii "Content-Type", ascii "application/x-www-form-urlencoded")]
    body := ascii "token=" ++ token
    formData := []
    url := Target.built urlVar }

/-- The URL record inside a request address. -/
def Target.urlVar : Target → URL
  | Target.built u => u
  | Target.raw s => { Scheme := [], Host := [], Path := s }

/-- VerifyTokenFromHeader will verify an Authorization string of the format
"Bearer ......". `post` is the answer of the HTTP client to a request and
`unmarshal` is `json.Unmarshal` into a zero `ClientDetails`. The result is the
Go triple `(bool, *ClientDetails, error)` and the events in program order. -/
def VerifyTokenFromHeader {L : Type} (a : Auth L)
    (post : Request → Except GoError GoString)
    (unmarshal : GoString → Except GoError ClientDetails)
    (header : GoString) :
    (Bool × Option ClientDetails × Option GoError) × List Event :=
  match getRawToken a header with
  | ((_, some err), ev) => ((false, none, some err), ev)
  | ((token, none), ev) =>
    let req := introspectRequest a token
    let ev := ev ++ [Event.log ⟨Sink.receiver, LogMethod.Tracef, "", [LogArg.url req.url.urlVar]⟩,
      Event.post req]
    match post req with
    | Except.error err => ((false, none, some err), ev)
    | Except.ok respBody =>
      match unmarshal respBody with
      | Except.error err =>
        ((false, none, some err),
          ev ++ [Event.log ⟨Sink.receiver, LogMethod.Error, "", [LogArg.err err]⟩])
      | Except.ok cd =>
        if cd.Active && strings.Contains cd.Scope a.scope then
          ((true, some cd, none),
            ev ++ [Event.log ⟨Sink.receiver, LogMethod.Tracef, "Authorized client: %s",
              [LogArg.str cd.ClientID]⟩])
        else
          ((false, none,
            some (errors.New (ascii "unknown error encountered while trying to validate token"))),
            ev)

/-- The Go function `handleFuncInternal`; `context` is the header lookup of the
request context, and the calls made on the context are events. -/
def handleFuncInternal {L : Type} (a : Auth L)
    (post : Request → Except GoError GoString)
    (unmarshal : GoString → Except GoError ClientDetails)
    (context : GoString → GoString) : List Event :=
  let h := context (ascii "Authorization")
  let ev := [Event.GetHeader (ascii "Authorization")]
  match VerifyTokenFromHeader a post unmarshal h with
  | ((_, _, some err), ev1) =>
    ev ++ ev1 ++ [Event.AbortWithStatusJSON http.StatusInternalServerError
      (JSONValue.H (ascii "error") (JSONValue.str err.msg))]
  | ((authorized, clientDetails, none), ev1) =>
    if authorized && clientDetails.isSome then
      ev ++ ev1 ++ [Event.Next]
    else
      ev ++ ev1 ++ [Event.AbortWithStatusJSON http.StatusUnauthorized
        (JSONValue.H (ascii "error") ginUnknownErrorReturn)]

/-- HandleFunc is the Gin middleware function; it passes its context on. -/
def HandleFunc {L : Type} (a : Auth L)
    (post : Request → Except GoError GoString)
    (unmarshal : GoString → Except GoError ClientDetails)
    (context : GoString → GoString) : List Event :=
  handleFuncInternal a post unmarshal context

/-! ## getter.go -/

def tokenTruncateLengthForLog : Nat := 5

/-- TokenGetter is a wrapper to get the actual token. -/
structure TokenGetter (L : Type) where
  clientID : GoString
  clientSecret : GoString
  clientAccessTokenURL : GoString
  log : L
  restyClient : RestyClient
  tokenContainer : Option TokenContainer

/-- NewGetter creates the token getter based on the arguments passed. -/
def NewGetter {L : Type} (clientID clientSecret clientAccessTokenURL : GoString) (logger : L) :
    Option (TokenGetter L) :=
  some ⟨clientID, clientSecret, clientAccessTokenURL, logger, resty.New, none⟩

/-- The request `GetToken` sends when it fetches. -/
def tokenRequest {L : Type} (g : TokenGetter L) : Request :=
  { basicAuth := none
    header := [(ascii "Content-Type", ascii "application/x-www-form-urlencoded")]
    body := []
    formData := [(ascii "client_id", g.clientID), (ascii "client_secret", g.clientSecret),
      (ascii "grant_type", ascii "client_credentials")]
    url := Target.raw g.clientAccessTokenURL }

/-- The first part of `GetToken`: the flag `needNewToken` and the log calls of
the two branches. `nowCheck` is the reading of `time.Now()` in the comparison. -/
def needNewToken {L : Type} (g : TokenGetter L) (nowCheck : Time) : Bool × List Event :=
  match g.tokenContainer with
  | none =>
    (true, [Event.log ⟨Sink.logrus, LogMethod.Tracef,
      "Getting new token because we don't have one yet", []⟩])
  | some c =>
    if Time.After nowCheck c.ExpiresAt then
      (true, [Event.log ⟨Sink.logrus, LogMethod.Tracef,
        "Getting a new token because the existing one expired", []⟩])
    else (false, [])

/-- The copy `tokenTrace` of the decoded token after the truncation step. -/
def tokenTrace (token : Token) : Token :=
  let tokenTrace := token
  if tokenTrace.AccessToken.length > tokenTruncateLengthForLog then
    { tokenTrace with AccessToken := tokenTrace.AccessToken.take tokenTruncateLengthForLog }
  else tokenTrace

/-- The result of one `GetToken` call: the Go pair `(*TokenContainer, error)`,
the getter after the call, and the events in program order. -/
structure GetTokenResult (L : Type) where
  ret : Option TokenContainer × Option GoError
  getter : TokenGetter L
  events : List Event

/-- GetToken actually makes the request from the Keycloak server for the token
if one is needed (don't have one or expired). `nowCheck` and `nowFetch` are the
readings of `time.Now()` in the expiry comparison and after the response was
decoded; `post` is the answer of the HTTP client and `unmarshal` is
`json.Unmarshal` into a zero `Token`. -/
def GetToken {L : Type} (g : TokenGetter L) (nowCheck nowFetch : Time)
    (post : Request → Except GoError GoString)
    (unmarshal : GoString → Except GoError Token) : GetTokenResult L :=
  let (need, ev) := needNewToken g nowCheck
  if need then
    let ev := ev ++ [Event.log ⟨Sink.logrus, LogMethod.Tracef, "Getting token", []⟩]
    let req := tokenRequest g
    let ev := ev ++ [Event.post req]
    match post req with
    | Except.error err =>
      ⟨(none, some err), g, ev ++ [Event.log ⟨Sink.receiver, LogMethod.Error, "", [LogArg.err err]⟩]⟩
    | Except.ok respBody =>
      match unmarshal respBody with
      | Except.error err =>
        ⟨(none, some err), g,
          ev ++ [Event.log ⟨Sink.receiver, LogMethod.Error, "", [LogArg.err err]⟩]⟩
      | Except.ok token =>
        let ev := ev ++ [Event.log ⟨Sink.receiver, LogMethod.Tracef,
          "Token (actual token value truncated): %+v", [LogArg.token (tokenTrace token)]⟩]
        let expiresAt :=
          Time.Add nowFetch (Duration.mul (time.Duration token.ExpiresInSeconds) time.Second)
        let ev := ev ++ [Event.log ⟨Sink.receiver, LogMethod.Tracef, "Expires at: %s",
          [LogArg.time expiresAt]⟩]
        let g1 : TokenGetter L :=
          { g with tokenContainer := some { KeycloakToken := some token, ExpiresAt := expiresAt } }
        ⟨(g1.tokenContainer, none), g1, ev⟩
  else
    ⟨(g.tokenContainer, none), g, ev⟩

/-! ## Examples used by the concrete checks -/

/-- A validator as built in the tests, with required scope `"b"`. -/
def exampleAuth : Auth Unit :=
  ⟨ascii "client-id-123", ascii "abc-123-def-4567-zxcv-9", ascii "auth.example.com", ascii "9000",
    ascii "http", ascii "b", (), ascii "/some/path/to/token/introspect/path", resty.New⟩

/-- A getter as built by `NewGetter`, with nothing cached. -/
def exampleGetter : TokenGetter Unit :=
  ⟨ascii "client-id-123", ascii "abc-123-def-4567-zxcv-9", ascii "https://auth.example.com/token",
    (), resty.New, none⟩

/-- A decoded token response with access token `accessToken` and `expires_in = n`. -/
def exampleToken (accessToken : GoString) (n : Int) : Token :=
  ⟨accessToken, n, 1800, ascii "Bearer", 0, ascii "profile email"⟩

/-- The example getter holding a container that expires at instant `100`. -/
def cachedGetter : TokenGetter Unit :=
  { exampleGetter with
    tokenContainer := some ⟨some (exampleToken (ascii "abcdefgh") 300), 100⟩ }

/-! ## Facts about the string functions -/

theorem Split_ne_nil (s : GoString) (sep : UInt8) : strings.Split s sep ≠ [] := by
  induction s with
  | nil => simp [strings.Split]
  | cons c cs ih =>
    unfold strings.Split
    split_ifs
    · simp
    · split <;> simp

theorem Split_of_not_mem (s : GoString) (sep : UInt8) (h : sep ∉ s) :
    strings.Split s sep = [s] := by
  induction s with
  | nil => simp [strings.Split]
  | cons c cs ih =>
    have hc : c ≠ sep := fun e => h (by simp [e])
    have hcs : sep ∉ cs := fun e => h (by simp [e])
    simp [strings.Split, hc, ih hcs]

theorem Split_append_sep (p q : GoString) (sep : UInt8) (h : sep ∉ p) :
    strings.Split (p ++ sep :: q) sep = p :: strings.Split q sep := by
  induction p with
  | nil => simp [strings.Split]
  | cons c cs ih =>
    have hc : c ≠ sep := fun e => h (by simp [e])
    have hcs : sep ∉ cs := fun e => h (by simp [e])
    simp [strings.Split, hc, ih hcs]

theorem first_occurrence (s : GoString) (sep : UInt8) :
    sep ∉ s ∨ ∃ p q, s = p ++ sep :: q ∧ sep ∉ p := by
  induction s with
  | nil => left; simp
  | cons c cs ih =>
    by_cases hc : c = sep
    · right; exact ⟨[], cs, by simp [hc], by simp⟩
    · rcases ih with h | ⟨p, q, hs, hp⟩
      · left
        intro hm
        rcases List.mem_cons.1 hm with e | e
        · exact hc e.symm
        · exact h e
      · right
        refine ⟨c :: p, q, by simp [hs], ?_⟩
        intro hm
        rcases List.mem_cons.1 hm with e | e
        · exact hc e.symm
        · exact hp e

/-- Splitting gives exactly two pieces iff the separator occurs exactly once,
between the two pieces. -/
theorem Split_eq_pair_iff (s p q : GoString) (sep : UInt8) :
    strings.Split s sep = [p, q] ↔ s = p ++ sep :: q ∧ sep ∉ p ∧ sep ∉ q := by
  constructor
  · intro h
    rcases first_occurrence s sep with hn | ⟨p1, q1, hs, hp1⟩
    · rw [Split_of_not_mem s sep hn] at h
      simp at h
    · rw [hs, Split_append_sep p1 q1 sep hp1] at h
      have hp : p1 = p := by
        have := congrArg List.head? h
        simpa using this
      have hq1 : strings.Split q1 sep = [q] := by
        have := congrArg List.tail h
        simpa using this
      rcases first_occurrence q1 sep with hn | ⟨p2, q2, hs2, hp2⟩
      · rw [Split_of_not_mem q1 sep hn] at hq1
        have hq : q1 = q := by simpa using hq1
        subst hp; subst hq
        exact ⟨hs, hp1, hn⟩
      · rw [hs2, Split_append_sep p2 q2 sep hp2] at hq1
        have := congrArg List.tail hq1
        simp at this
        exact absurd this (Split_ne_nil q2 sep)
  · rintro ⟨hs, hp, hq⟩
    rw [hs, Split_append_sep p q sep hp, Split_of_not_mem q sep hq]

theorem Contains_iff (s substr : GoString) :
    strings.Contains s substr = true ↔ ∃ u v, s = u ++ substr ++ v := by
  induction s with
  | nil =>
    simp only [strings.Contains, List.isPrefixOf_iff_prefix]
    constructor
    · intro h
      have : substr = [] := List.prefix_nil.1 h
      exact ⟨[], [], by simp [this]⟩
    · rintro ⟨u, v, h⟩
      have h1 : u ++ substr ++ v = [] := h.symm
      simp only [List.append_eq_nil] at h1
      simp [h1.1.2]
  | cons c cs ih =>
    simp only [strings.Contains, Bool.or_eq_true, List.isPrefixOf_iff_prefix, ih]
    constructor
    · rintro (⟨v, hv⟩ | ⟨u, v, h⟩)
      · exact ⟨[], v, by simp [hv]⟩
      · exact ⟨c :: u, v, by simp [h]⟩
    · rintro ⟨u, v, h⟩
      cases u with
      | nil => left; exact ⟨v, by simpa using h.symm⟩
      | cons d u1 =>
        right
        simp only [List.cons_append, List.cons.injEq] at h
        exact ⟨u1, v, h.2⟩

/-! ## getRawToken -/

theorem Bearer_no_space : space ∉ ascii "Bearer" := by decide

/-- The extraction succeeds with token `t` exactly on the header `Bearer`,
one space, `t`, where `t` holds no space. -/
theorem getRawToken_ok_iff {L : Type} (a : Auth L) (h t : GoString) :
    (getRawToken a h).1 = (t, none) ↔ h = ascii "Bearer" ++ space :: t ∧ space ∉ t := by
  constructor
  · intro hr
    unfold getRawToken at hr
    simp only at hr
    split_ifs at hr with h1 h2
    · simp at hr
    · simp at hr
    · have hlen : (strings.Split h space).length = 2 := by
        simpa [tokenHeaderParts] using h1
      obtain ⟨p, q, hpq⟩ : ∃ p q, strings.Split h space = [p, q] := by
        match hs : strings.Split h space, hlen with
        | [p, q], _ => exact ⟨p, q, rfl⟩
      rw [hpq] at hr h2
      simp only [List.getD_cons_zero, ne_eq, not_not] at h2
      simp only [List.getD_cons_succ, List.getD_cons_zero, Prod.mk.injEq, and_true] at hr
      subst h2; subst hr
      have := (Split_eq_pair_iff h _ _ space).1 hpq
      exact ⟨this.1, this.2.2⟩
  · rintro ⟨hs, ht⟩
    have hpq := (Split_eq_pair_iff h (ascii "Bearer") t space).2 ⟨hs, Bearer_no_space, ht⟩
    unfold getRawToken
    simp [hpq, tokenHeaderParts]

/-- Whenever the extraction does not succeed, it returns the empty string and the
fixed error. -/
theorem getRawToken_total {L : Type} (a : Auth L) (h : GoString) :
    (∃ t, (getRawToken a h).1 = (t, none)) ∨
      (getRawToken a h).1 = ([], some errorAuthHeaderIncorrectOrInvalid) := by
  unfold getRawToken
  simp only
  split_ifs
  · right; rfl
  · right; rfl
  · left; exact ⟨_, rfl⟩

/-- C2: for every header `h`, `getRawToken` returns `(t, nil)` when `h` is
`"Bearer "` followed by a token `t` without a space character, and in every other
case returns the empty string together with `errorAuthHeaderIncorrectOrInvalid`. -/
theorem getRawToken_bearer_or_error {L : Type} (a : Auth L) (h : GoString) :
    (∀ t, h = ascii "Bearer " ++ t → space ∉ t → (getRawToken a h).1 = (t, none)) ∧
    ((¬ ∃ t, h = ascii "Bearer " ++ t ∧ space ∉ t) →
      (getRawToken a h).1 = ([], some errorAuthHeaderIncorrectOrInvalid)) := by
  have hb : ∀ t : GoString, ascii "Bearer " ++ t = ascii "Bearer" ++ space :: t := fun _ => rfl
  constructor
  · intro t ht hs
    exact (getRawToken_ok_iff a h t).2 ⟨by rw [ht, hb], hs⟩
  · intro hn
    rcases getRawToken_total a h with ⟨t, ht⟩ | he
    · have := (getRawToken_ok_iff a h t).1 ht
      exact absurd ⟨t, by rw [this.1, hb], this.2⟩ hn
    · exact he

/-- C2, checked on the headers of the tests: `"Bearer abc"` gives `"abc"`, and
`"Bearer 123-456-789 extra-token-bit"`, `"Bearer a b"`, `"Apple 123-456-789"` and
`"Basic xyz"` give the error. -/
theorem getRawToken_bearer_or_error_witness :
    (getRawToken exampleAuth (ascii "Bearer abc")).1 = (ascii "abc", none) ∧
    (getRawToken exampleAuth (ascii "Bearer 123-456-789 extra-token-bit")).1
      = ([], some errorAuthHeaderIncorrectOrInvalid) ∧
    (getRawToken exampleAuth (ascii "Bearer a b")).1
      = ([], some errorAuthHeaderIncorrectOrInvalid) ∧
    (getRawToken exampleAuth (ascii "Apple 123-456-789")).1
      = ([], some errorAuthHeaderIncorrectOrInvalid) ∧
    (getRawToken exampleAuth (ascii "Basic xyz")).1
      = ([], some errorAuthHeaderIncorrectOrInvalid) := by
  refine ⟨(getRawToken_bearer_or_error exampleAuth _).1 (ascii "abc") (by decide) (by decide),
    (getRawToken_bearer_or_error exampleAuth _).2 ?_,
    (getRawToken_bearer_or_error exampleAuth _).2 ?_,
    (getRawToken_bearer_or_error exampleAuth _).2 ?_,
    (getRawToken_bearer_or_error exampleAuth _).2 ?_⟩
  · rintro ⟨t, ht, hs⟩
    have ht1 : t = ascii "123-456-789 extra-token-bit" :=
      (@List.append_cancel_left UInt8 (ascii "Bearer ") _ _ ht).symm
    subst ht1
    exact hs (by decide)
  · rintro ⟨t, ht, hs⟩
    have ht1 : t = ascii "a b" := (@List.append_cancel_left UInt8 (ascii "Bearer ") _ _ ht).symm
    subst ht1
    exact hs (by decide)
  · rintro ⟨t, ht, -⟩
    have h1 : ([65] : GoString) = [66] := congrArg (List.take 1) ht
    exact absurd h1 (by decide)
  · rintro ⟨t, ht, -⟩
    have h1 : ([66, 97] : GoString) = [66, 101] := congrArg (List.take 2) ht
    exact absurd h1 (by decide)

/-- C9 (as stated, refuted): `"Bearer a\tb"` is accepted and the returned token
holds a tab (byte 9), and `"Bearer "` is accepted with the empty token. -/
theorem getRawToken_accepts_tab_and_empty_token :
    (getRawToken exampleAuth (ascii "Bearer a\tb")).1 = (ascii "a\tb", none) ∧
    (9 : UInt8) ∈ ascii "a\tb" ∧
    (getRawToken exampleAuth (ascii "Bearer ")).1 = ([], none) := by
  decide

/-- C9 (amended): on every header on which `getRawToken` succeeds, splitting the
header at the space character gives exactly the two parts `"Bearer"` and the
returned token, and the returned token holds no space character. -/
theorem getRawToken_success_shape {L : Type} (a : Auth L) (h t : GoString)
    (hok : (getRawToken a h).1 = (t, none)) :
    strings.Split h space = [ascii "Bearer", t] ∧
    h = ascii "Bearer" ++ space :: t ∧ space ∉ t := by
  have hs := (getRawToken_ok_iff a h t).1 hok
  exact ⟨(Split_eq_pair_iff h _ t space).2 ⟨hs.1, Bearer_no_space, hs.2⟩, hs.1, hs.2⟩

/-- C9 (amended), at the header `"Bearer a\tb"`. -/
theorem getRawToken_success_shape_witness :
    strings.Split (ascii "Bearer a\tb") space = [ascii "Bearer", ascii "a\tb"] ∧
    ascii "Bearer a\tb" = ascii "Bearer" ++ space :: ascii "a\tb" ∧ space ∉ ascii "a\tb" :=
  getRawToken_success_shape exampleAuth (ascii "Bearer a\tb") (ascii "a\tb") (by decide)

/-- C10: for all arguments `New` returns a non-nil validator whose scheme is
`"https"` if the scheme argument is empty and the argument otherwise, whose port
is `"443"` if the port argument is empty and the argument otherwise, and whose
client id, client secret, host, required scope, introspection path and logger
are the arguments unchanged. -/
theorem New_defaults {L : Type} (id secret host port scheme scope tokenIntrospectPath : GoString)
    (logger : L) :
    ∃ a, New id secret host port scheme scope tokenIntrospectPath logger = some a ∧
      a.scheme = (if scheme = [] then ascii "https" else scheme) ∧
      a.port = (if port = [] then ascii "443" else port) ∧
      a.clientID = id ∧ a.clientSecret = secret ∧ a.host = host ∧ a.scope = scope ∧
      a.tokenIntrospectPath = tokenIntrospectPath ∧ a.log = logger := by
  refine ⟨_, rfl, ?_⟩
  by_cases hs : scheme = [] <;> by_cases hp : port = [] <;> simp [hs, hp]

/-! ## VerifyTokenFromHeader and handleFuncInternal -/

/-- The events of `getRawToken` are log calls. -/
theorem getRawToken_events {L : Type} (a : Auth L) (h : GoString) :
    ∀ e ∈ (getRawToken a h).2, ∃ c, e = Event.log c := by
  unfold getRawToken
  simp only
  split_ifs <;> simp

/-- What `VerifyTokenFromHeader` returns, by the outcome of each step. -/
theorem VerifyTokenFromHeader_ret {L : Type} (a : Auth L)
    (post : Request → Except GoError GoString)
    (unmarshal : GoString → Except GoError ClientDetails) (header : GoString) :
    (VerifyTokenFromHeader a post unmarshal header).1 =
      match (getRawToken a header).1 with
      | (_, some err) => (false, none, some err)
      | (token, none) =>
        match post (introspectRequest a token) with
        | Except.error err => (false, none, some err)
        | Except.ok respBody =>
          match unmarshal respBody with
          | Except.error err => (false, none, some err)
          | Except.ok cd =>
            if cd.Active && strings.Contains cd.Scope a.scope then (true, some cd, none)
            else (false, none, some (errors.New unknownErrorString)) := by
  unfold VerifyTokenFromHeader
  rcases hg : getRawToken a header with ⟨⟨token, _ | err⟩, ev⟩
  · simp only
    rcases hp : post (introspectRequest a token) with err | respBody
    · simp only
    · simp only
      rcases hu : unmarshal respBody with err | cd
      · simp only
      · simp only
        split_ifs <;> rfl
  · simp only

/-- Every event of `VerifyTokenFromHeader` is a log call or an HTTP request. -/
theorem VerifyTokenFromHeader_events {L : Type} (a : Auth L)
    (post : Request → Except GoError GoString)
    (unmarshal : GoString → Except GoError ClientDetails) (header : GoString) :
    ∀ e ∈ (VerifyTokenFromHeader a post unmarshal header).2,
      (∃ c, e = Event.log c) ∨ (∃ r, e = Event.post r) := by
  have hg0 := getRawToken_events a header
  unfold VerifyTokenFromHeader
  rcases hg : getRawToken a header with ⟨⟨token, _ | err⟩, ev⟩
  · rw [hg] at hg0
    simp only at hg0 ⊢
    rcases hp : post (introspectRequest a token) with err | respBody
    · simp only
      intro e he
      simp only [List.mem_append, List.mem_cons, List.mem_singleton, List.not_mem_nil,
        or_false] at he
      rcases he with he | he | he
      · exact Or.inl (hg0 e he)
      · exact Or.inl ⟨_, he⟩
      · exact Or.inr ⟨_, he⟩
    · simp only
      rcases hu : unmarshal respBody with err | cd
      · simp only
        intro e he
        simp only [List.mem_append, List.mem_cons, List.mem_singleton, List.not_mem_nil,
          or_false] at he
        rcases he with (he | he | he) | he
        · exact Or.inl (hg0 e he)
        · exact Or.inl ⟨_, he⟩
        · exact Or.inr ⟨_, he⟩
        · exact Or.inl ⟨_, he⟩
      · simp only
        split_ifs
        · intro e he
          simp only [List.mem_append, List.mem_cons, List.mem_singleton, List.not_mem_nil,
            or_false] at he
          rcases he with (he | he | he) | he
          · exact Or.inl (hg0 e he)
          · exact Or.inl ⟨_, he⟩
          · exact Or.inr ⟨_, he⟩
          · exact Or.inl ⟨_, he⟩
        · intro e he
          simp only [List.mem_append, List.mem_cons, List.mem_singleton, List.not_mem_nil,
            or_false] at he
          rcases he with he | he | he
          · exact Or.inl (hg0 e he)
          · exact Or.inl ⟨_, he⟩
          · exact Or.inr ⟨_, he⟩
  · rw [hg] at hg0
    simp only at hg0 ⊢
    intro e he
    exact Or.inl (hg0 e he)

theorem contextCalls_append (xs ys : List Event) :
    contextCalls (xs ++ ys) = contextCalls xs ++ contextCalls ys := by
  induction xs with
  | nil => rfl
  | cons x xs ih => cases x <;> simp [contextCalls, ih]

theorem contextCalls_eq_nil (xs : List Event)
    (h : ∀ e ∈ xs, (∃ c, e = Event.log c) ∨ (∃ r, e = Event.post r)) :
    contextCalls xs = [] := by
  induction xs with
  | nil => rfl
  | cons x xs ih =>
    have hx := h x (by simp)
    have hxs : ∀ e ∈ xs, (∃ c, e = Event.log c) ∨ (∃ r, e = Event.post r) :=
      fun e he => h e (by simp [he])
    rcases hx with ⟨c, rfl⟩ | ⟨r, rfl⟩ <;> simp [contextCalls, ih hxs]

/-- A successful return of `VerifyTokenFromHeader` is `(true, cd, nil)` with a
non-nil `cd`. -/
theorem VerifyTokenFromHeader_no_error {L : Type} (a : Auth L)
    (post : Request → Except GoError GoString)
    (unmarshal : GoString → Except GoError ClientDetails) (header : GoString)
    (h : (VerifyTokenFromHeader a post unmarshal header).1.2.2 = none) :
    ∃ cd, (VerifyTokenFromHeader a post unmarshal header).1 = (true, some cd, none) := by
  rw [VerifyTokenFromHeader_ret] at h ⊢
  rcases hg : (getRawToken a header).1 with ⟨token, _ | err⟩
  · rw [hg] at h
    simp only at h ⊢
    rcases hp : post (introspectRequest a token) with err | respBody
    · rw [hp] at h; simp at h
    · rw [hp] at h
      simp only at h ⊢
      rcases hu : unmarshal respBody with err | cd
      · rw [hu] at h; simp at h
      · rw [hu] at h
        simp only at h ⊢
        split_ifs at h ⊢
        exact ⟨cd, rfl⟩
  · rw [hg] at h; simp at h

/-- The events of `handleFuncInternal`: the header lookup, the events of the
verification, and one final call chosen by the verification's error. -/
theorem handleFuncInternal_events {L : Type} (a : Auth L)
    (post : Request → Except GoError GoString)
    (unmarshal : GoString → Except GoError ClientDetails)
    (context : GoString → GoString) :
    handleFuncInternal a post unmarshal context =
      [Event.GetHeader (ascii "Authorization")] ++
      (VerifyTokenFromHeader a post unmarshal (context (ascii "Authorization"))).2 ++
      [match (VerifyTokenFromHeader a post unmarshal (context (ascii "Authorization"))).1.2.2 with
        | none => Event.Next
        | some err => Event.AbortWithStatusJSON 500
            (JSONValue.H (ascii "error") (JSONValue.str err.msg))] := by
  have hne := VerifyTokenFromHeader_no_error a post unmarshal (context (ascii "Authorization"))
  unfold handleFuncInternal
  rcases hv : VerifyTokenFromHeader a post unmarshal (context (ascii "Authorization")) with
    ⟨⟨authorized, clientDetails, _ | err⟩, ev1⟩
  · rw [hv] at hne
    obtain ⟨cd, hcd⟩ := hne rfl
    simp only [Prod.mk.injEq] at hcd
    obtain ⟨h1, h2, -⟩ := hcd
    subst h1; subst h2
    simp [hv]
  · simp [hv, http.StatusInternalServerError]

/-- C1: for every validator with required scope `r`, every header from which
`getRawToken` extracts a token, and every introspection response body that
decodes to `cd`: `VerifyTokenFromHeader` returns `(true, cd, nil)` if `cd.Active`
holds and `r` is a contiguous substring of `cd.Scope`, and otherwise returns
`(false, nil, err)` with `err` the error whose message is
"unknown error encountered while trying to validate token". -/
theorem VerifyTokenFromHeader_decision {L : Type} (a : Auth L)
    (post : Request → Except GoError GoString)
    (unmarshal : GoString → Except GoError ClientDetails)
    (header token respBody : GoString) (cd : ClientDetails)
    (htok : (getRawToken a header).1 = (token, none))
    (hpost : post (introspectRequest a token) = Except.ok respBody)
    (hdec : unmarshal respBody = Except.ok cd) :
    ((cd.Active = true ∧ ∃ u v, cd.Scope = u ++ a.scope ++ v) →
      (VerifyTokenFromHeader a post unmarshal header).1 = (true, some cd, none)) ∧
    (¬ (cd.Active = true ∧ ∃ u v, cd.Scope = u ++ a.scope ++ v) →
      ∃ err, (VerifyTokenFromHeader a post unmarshal header).1 = (false, none, some err) ∧
        err.msg = ascii "unknown error encountered while trying to validate token") := by
  have hret := VerifyTokenFromHeader_ret a post unmarshal header
  rw [htok] at hret
  simp only [hpost, hdec] at hret
  rw [hret]
  constructor
  · rintro ⟨hact, hsub⟩
    have hc := (Contains_iff cd.Scope a.scope).2 hsub
    simp [hact, hc]
  · intro hn
    have hc : ¬ (cd.Active = true ∧ strings.Contains cd.Scope a.scope = true) :=
      fun h => hn ⟨h.1, (Contains_iff cd.Scope a.scope).1 h.2⟩
    refine ⟨errors.New unknownErrorString, ?_, rfl⟩
    simp only [Bool.and_eq_true]
    rw [if_neg hc]

/-- C1, on the examples of the claim: scope `"a b c"` with required scope `"b"`
and scope `"admin-scope"` with required scope `"admin"` are authorized; scope
`"aaa bbb"` with required scope `"zzz"` and a response with `active = false` give
the error. -/
theorem VerifyTokenFromHeader_decision_witness :
    (VerifyTokenFromHeader exampleAuth (fun _ => Except.ok [])
        (fun _ => Except.ok ⟨true, ascii "a b c", ascii "x"⟩) (ascii "Bearer abc")).1
      = (true, some ⟨true, ascii "a b c", ascii "x"⟩, none) ∧
    (VerifyTokenFromHeader { exampleAuth with scope := ascii "admin" } (fun _ => Except.ok [])
        (fun _ => Except.ok ⟨true, ascii "admin-scope", ascii "x"⟩) (ascii "Bearer abc")).1
      = (true, some ⟨true, ascii "admin-scope", ascii "x"⟩, none) ∧
    (∃ err, (VerifyTokenFromHeader { exampleAuth with scope := ascii "zzz" }
        (fun _ => Except.ok [])
        (fun _ => Except.ok ⟨true, ascii "aaa bbb", ascii "x"⟩) (ascii "Bearer abc")).1
      = (false, none, some err) ∧
      err.msg = ascii "unknown error encountered while trying to validate token") ∧
    (∃ err, (VerifyTokenFromHeader exampleAuth (fun _ => Except.ok [])
        (fun _ => Except.ok ⟨false, ascii "a b c", ascii "x"⟩) (ascii "Bearer abc")).1
      = (false, none, some err) ∧
      err.msg = ascii "unknown error encountered while trying to validate token") :=
  ⟨(VerifyTokenFromHeader_decision exampleAuth _ _ (ascii "Bearer abc") (ascii "abc") []
      ⟨true, ascii "a b c", ascii "x"⟩ (by decide) rfl rfl).1
      ⟨rfl, ascii "a ", ascii " c", by decide⟩,
    (VerifyTokenFromHeader_decision { exampleAuth with scope := ascii "admin" } _ _
      (ascii "Bearer abc") (ascii "abc") []
      ⟨true, ascii "admin-scope", ascii "x"⟩ (by decide) rfl rfl).1
      ⟨rfl, [], ascii "-scope", by decide⟩,
    (VerifyTokenFromHeader_decision { exampleAuth with scope := ascii "zzz" } _ _
      (ascii "Bearer abc") (ascii "abc") []
      ⟨true, ascii "aaa bbb", ascii "x"⟩ (by decide) rfl rfl).2
      (fun h => absurd ((Contains_iff _ _).2 h.2) (by decide)),
    (VerifyTokenFromHeader_decision exampleAuth _ _ (ascii "Bearer abc") (ascii "abc") []
      ⟨false, ascii "a b c", ascii "x"⟩ (by decide) rfl rfl).2
      (fun h => absurd h.1 (by decide))⟩

/-- C3: for every Authorization header value and every outcome of the
introspection call, the calls `handleFuncInternal` makes on the request context
are `GetHeader("Authorization")` followed by exactly one more call: `Next` when
`VerifyTokenFromHeader` returned no error, and `AbortWithStatusJSON` with status
500 and body `{"error": <message>}` when it returned an error. No abort with
status 401 is made, and `Next` and an abort are never both made. In particular
`active = false` gives the single abort with status 500 and the unknown-error
body, and `active = true` with a matching scope gives the single `Next`. -/
theorem handleFuncInternal_one_context_call {L : Type} (a : Auth L)
    (post : Request → Except GoError GoString)
    (unmarshal : GoString → Except GoError ClientDetails)
    (context : GoString → GoString) :
    contextCalls (handleFuncInternal a post unmarshal context) =
      [Event.GetHeader (ascii "Authorization"),
        match (VerifyTokenFromHeader a post unmarshal (context (ascii "Authorization"))).1.2.2 with
        | none => Event.Next
        | some err => Event.AbortWithStatusJSON 500
            (JSONValue.H (ascii "error") (JSONValue.str err.msg))] ∧
    (∀ j, Event.AbortWithStatusJSON 401 j ∉ handleFuncInternal a post unmarshal context) ∧
    ¬ (Event.Next ∈ handleFuncInternal a post unmarshal context ∧
        ∃ c j, Event.AbortWithStatusJSON c j ∈ handleFuncInternal a post unmarshal context) ∧
    (∀ token respBody cd,
      (getRawToken a (context (ascii "Authorization"))).1 = (token, none) →
      post (introspectRequest a token) = Except.ok respBody →
      unmarshal respBody = Except.ok cd →
      (cd.Active = false →
        contextCalls (handleFuncInternal a post unmarshal context) =
          [Event.GetHeader (ascii "Authorization"),
            Event.AbortWithStatusJSON 500 (JSONValue.H (ascii "error") (JSONValue.str
              (ascii "unknown error encountered while trying to validate token")))]) ∧
      (cd.Active = true → strings.Contains cd.Scope a.scope = true →
        contextCalls (handleFuncInternal a post unmarshal context) =
          [Event.GetHeader (ascii "Authorization"), Event.Next])) := by
  have hev := handleFuncInternal_events a post unmarshal context
  have hve := VerifyTokenFromHeader_events a post unmarshal (context (ascii "Authorization"))
  have hnil := contextCalls_eq_nil _ hve
  have hcalls : contextCalls (handleFuncInternal a post unmarshal context) =
      [Event.GetHeader (ascii "Authorization"),
        match (VerifyTokenFromHeader a post unmarshal (context (ascii "Authorization"))).1.2.2 with
        | none => Event.Next
        | some err => Event.AbortWithStatusJSON 500
            (JSONValue.H (ascii "error") (JSONValue.str err.msg))] := by
    rw [hev, contextCalls_append, contextCalls_append, hnil]
    cases (VerifyTokenFromHeader a post unmarshal (context (ascii "Authorization"))).1.2.2 <;>
      simp [contextCalls]
  have hmem : ∀ e, e ∈ handleFuncInternal a post unmarshal context →
      e ∈ contextCalls (handleFuncInternal a post unmarshal context) ∨
        (∃ c, e = Event.log c) ∨ (∃ r, e = Event.post r) := by
    intro e he
    rw [hcalls]
    rw [hev] at he
    simp only [List.mem_append, List.mem_singleton] at he
    rcases he with (he | he) | he
    · left; simp [he]
    · right; exact hve e he
    · left; simp [he]
  refine ⟨hcalls, ?_, ?_, ?_⟩
  · intro j hj
    rcases hmem _ hj with h | ⟨c, h⟩ | ⟨r, h⟩
    · rw [hcalls] at h
      cases hv : (VerifyTokenFromHeader a post unmarshal (context (ascii "Authorization"))).1.2.2 <;>
        simp [hv] at h
    · cases h
    · cases h
  · rintro ⟨hn, c, j, ha⟩
    rcases hmem _ hn with h | ⟨c1, h⟩ | ⟨r, h⟩
    · rcases hmem _ ha with h2 | ⟨c2, h2⟩ | ⟨r2, h2⟩
      · rw [hcalls] at h h2
        cases hv : (VerifyTokenFromHeader a post unmarshal
            (context (ascii "Authorization"))).1.2.2 <;> simp [hv] at h h2
      · cases h2
      · cases h2
    · cases h
    · cases h
  · intro token respBody cd htok hpost hdec
    have hret := VerifyTokenFromHeader_ret a post unmarshal (context (ascii "Authorization"))
    rw [htok] at hret
    simp only [hpost, hdec] at hret
    constructor
    · intro hact
      rw [hcalls, hret]
      simp [hact, errors.New, unknownErrorString]
    · intro hact hc
      rw [hcalls, hret]
      simp [hact, hc]

/-- C3, on a response with `active = false`: one abort with status 500. -/
theorem handleFuncInternal_one_context_call_witness :
    contextCalls (handleFuncInternal exampleAuth (fun _ => Except.ok [])
        (fun _ => Except.ok ⟨false, [], []⟩) (fun _ => ascii "Bearer abc")) =
      [Event.GetHeader (ascii "Authorization"),
        Event.AbortWithStatusJSON 500 (JSONValue.H (ascii "error") (JSONValue.str
          (ascii "unknown error encountered while trying to validate token")))] :=
  ((handleFuncInternal_one_context_call exampleAuth (fun _ => Except.ok [])
      (fun _ => Except.ok ⟨false, [], []⟩) (fun _ => ascii "Bearer abc")).2.2.2
    (ascii "abc") [] ⟨false, [], []⟩ (by decide) rfl rfl).1 rfl

/-! ## GetToken -/

theorem wrapInt64_of_isInt64 (x : Int) (h : isInt64 x) : wrapInt64 x = x := by
  unfold isInt64 at h
  unfold wrapInt64
  have h1 : (x + (2 : Int) ^ 63) % (2 : Int) ^ 64 = x + (2 : Int) ^ 63 :=
    Int.emod_eq_of_lt (by omega) (by omega)
  omega

/-- The fetch decision: nothing cached, or the reading of the clock is strictly
after the cached `ExpiresAt`. -/
theorem needNewToken_iff {L : Type} (g : TokenGetter L) (nowCheck : Time) :
    (needNewToken g nowCheck).1 = true ↔
      ∀ c, g.tokenContainer = some c → c.ExpiresAt < nowCheck := by
  unfold needNewToken
  cases hc : g.tokenContainer with
  | none => simp
  | some c =>
    by_cases h : c.ExpiresAt < nowCheck <;> simp [Time.After, h]

/-- The decision itself issues no request and logs no token. -/
theorem needNewToken_events_quiet {L : Type} (g : TokenGetter L) (nowCheck : Time) :
    posts (needNewToken g nowCheck).2 = [] ∧ logArgs (needNewToken g nowCheck).2 = [] := by
  unfold needNewToken
  cases hc : g.tokenContainer with
  | none => exact ⟨rfl, rfl⟩
  | some c =>
    simp only
    split_ifs
    · exact ⟨rfl, rfl⟩
    · exact ⟨rfl, rfl⟩

/-- The call without a fetch: no event, the cached container is returned, the
getter is as before. -/
theorem GetToken_cached {L : Type} (g : TokenGetter L) (c : TokenContainer)
    (nowCheck nowFetch : Time) (post : Request → Except GoError GoString)
    (unmarshal : GoString → Except GoError Token)
    (hc : g.tokenContainer = some c) (hle : nowCheck ≤ c.ExpiresAt) :
    GetToken g nowCheck nowFetch post unmarshal = ⟨(some c, none), g, []⟩ := by
  have hn : ¬ c.ExpiresAt < nowCheck := not_lt.2 hle
  unfold GetToken needNewToken
  simp [hc, Time.After, hn]

/-- The call with a fetch issues exactly one request, whatever the outcome. -/
theorem GetToken_fetch_posts {L : Type} (g : TokenGetter L)
    (nowCheck nowFetch : Time) (post : Request → Except GoError GoString)
    (unmarshal : GoString → Except GoError Token)
    (hneed : ∀ c, g.tokenContainer = some c → c.ExpiresAt < nowCheck) :
    posts (GetToken g nowCheck nowFetch post unmarshal).events = [tokenRequest g] := by
  have hn := (needNewToken_iff g nowCheck).2 hneed
  unfold GetToken
  rcases hnn : needNewToken g nowCheck with ⟨need, ev⟩
  rw [hnn] at hn
  simp only at hn
  subst hn
  have hev : posts ev = [] := by
    have := (needNewToken_events_quiet g nowCheck).1
    rw [hnn] at this
    exact this
  have happ : ∀ xs ys : List Event, posts (xs ++ ys) = posts xs ++ posts ys := by
    intro xs ys
    induction xs with
    | nil => rfl
    | cons x xs ih => cases x <;> simp [posts, ih]
  simp only [if_true]
  rcases hp : post (tokenRequest g) with err | respBody
  · simp [happ, hev, posts]
  · simp only
    rcases hu : unmarshal respBody with err | token
    · simp [happ, hev, posts]
    · simp [happ, hev, posts]

/-- The call with a failed fetch. -/
theorem GetToken_fetch_failed {L : Type} (g : TokenGetter L)
    (nowCheck nowFetch : Time) (post : Request → Except GoError GoString)
    (unmarshal : GoString → Except GoError Token) (err : GoError)
    (hneed : ∀ c, g.tokenContainer = some c → c.ExpiresAt < nowCheck)
    (hfail : post (tokenRequest g) = Except.error err ∨
      ∃ respBody, post (tokenRequest g) = Except.ok respBody ∧
        unmarshal respBody = Except.error err) :
    (GetToken g nowCheck nowFetch post unmarshal).ret = (none, some err) ∧
    (GetToken g nowCheck nowFetch post unmarshal).getter = g := by
  have hn := (needNewToken_iff g nowCheck).2 hneed
  unfold GetToken
  rcases hnn : needNewToken g nowCheck with ⟨need, ev⟩
  rw [hnn] at hn
  simp only at hn
  subst hn
  simp only [if_true]
  rcases hfail with hp | ⟨respBody, hp, hu⟩
  · simp [hp]
  · simp [hp, hu]

/-- The call with a successful fetch. -/
theorem GetToken_fetch_ok {L : Type} (g : TokenGetter L)
    (nowCheck nowFetch : Time) (post : Request → Except GoError GoString)
    (unmarshal : GoString → Except GoError Token) (respBody : GoString) (token : Token)
    (hneed : ∀ c, g.tokenContainer = some c → c.ExpiresAt < nowCheck)
    (hp : post (tokenRequest g) = Except.ok respBody)
    (hu : unmarshal respBody = Except.ok token) :
    (GetToken g nowCheck nowFetch post unmarshal).ret =
      (some ⟨some token, nowFetch + wrapInt64 (token.ExpiresInSeconds * 1000000000)⟩, none) ∧
    (GetToken g nowCheck nowFetch post unmarshal).getter =
      { g with tokenContainer := some (TokenContainer.mk (some token)
          (nowFetch + wrapInt64 (token.ExpiresInSeconds * 1000000000))) } ∧
    logArgs (GetToken g nowCheck nowFetch post unmarshal).events =
      [LogArg.token (tokenTrace token),
        LogArg.time (nowFetch + wrapInt64 (token.ExpiresInSeconds * 1000000000))] := by
  have hn := (needNewToken_iff g nowCheck).2 hneed
  unfold GetToken
  rcases hnn : needNewToken g nowCheck with ⟨need, ev⟩
  rw [hnn] at hn
  simp only at hn
  subst hn
  have hev : logArgs ev = [] := by
    have := (needNewToken_events_quiet g nowCheck).2
    rw [hnn] at this
    exact this
  have happ : ∀ xs ys : List Event,
      logArgs (xs ++ ys) = logArgs xs ++ logArgs ys := by
    intro xs ys
    induction xs with
    | nil => rfl
    | cons x xs ih => cases x <;> simp [logArgs, ih]
  simp only [if_true, hp, hu]
  refine ⟨rfl, rfl, ?_⟩
  simp [happ, hev, logArgs, Time.Add, Duration.mul, time.Duration, time.Second]

theorem tokenTrace_AccessToken (token : Token) :
    (tokenTrace token).AccessToken = token.AccessToken.take 5 := by
  unfold tokenTrace
  simp only [tokenTruncateLengthForLog]
  split_ifs with h
  · rfl
  · exact (List.take_of_length_le (by omega)).symm

/-- A call that returns a container without error leaves that container cached. -/
theorem GetToken_ret_cached {L : Type} (g : TokenGetter L)
    (nowCheck nowFetch : Time) (post : Request → Except GoError GoString)
    (unmarshal : GoString → Except GoError Token) (c : TokenContainer)
    (hret : (GetToken g nowCheck nowFetch post unmarshal).ret = (some c, none)) :
    (GetToken g nowCheck nowFetch post unmarshal).getter.tokenContainer = some c := by
  by_cases hneed : ∀ c0, g.tokenContainer = some c0 → c0.ExpiresAt < nowCheck
  · rcases hp : post (tokenRequest g) with err | respBody
    · rw [(GetToken_fetch_failed g nowCheck nowFetch post unmarshal err hneed (Or.inl hp)).1] at hret
      simp at hret
    · rcases hu : unmarshal respBody with err | token
      · rw [(GetToken_fetch_failed g nowCheck nowFetch post unmarshal err hneed
          (Or.inr ⟨respBody, hp, hu⟩)).1] at hret
        simp at hret
      · obtain ⟨h1, h2, -⟩ := GetToken_fetch_ok g nowCheck nowFetch post unmarshal respBody token
          hneed hp hu
        rw [h1] at hret
        rw [h2]
        simp only [Prod.mk.injEq, and_true] at hret
        exact hret
  · push_neg at hneed
    obtain ⟨c0, hc0, hle⟩ := hneed
    rw [GetToken_cached g c0 nowCheck nowFetch post unmarshal hc0 hle] at hret ⊢
    simp only [Prod.mk.injEq, and_true] at hret
    rw [hc0]
    exact hret

/-- A call issues no request or exactly the one token request. -/
theorem GetToken_posts_cases {L : Type} (g : TokenGetter L)
    (nowCheck nowFetch : Time) (post : Request → Except GoError GoString)
    (unmarshal : GoString → Except GoError Token) :
    posts (GetToken g nowCheck nowFetch post unmarshal).events = [] ∨
    posts (GetToken g nowCheck nowFetch post unmarshal).events = [tokenRequest g] := by
  by_cases hneed : ∀ c0, g.tokenContainer = some c0 → c0.ExpiresAt < nowCheck
  · exact Or.inr (GetToken_fetch_posts g nowCheck nowFetch post unmarshal hneed)
  · push_neg at hneed
    obtain ⟨c0, hc0, hle⟩ := hneed
    rw [GetToken_cached g c0 nowCheck nowFetch post unmarshal hc0 hle]
    exact Or.inl rfl

theorem posts_append (xs ys : List Event) : posts (xs ++ ys) = posts xs ++ posts ys := by
  induction xs with
  | nil => rfl
  | cons x xs ih => cases x <;> simp [posts, ih]

/-- If a `GetToken` call performs a fetch and returns container `c` without
error, then a following `GetToken` call whose clock reading `t2` is not after
`c.ExpiresAt` issues no request, returns the same `c` with no error and leaves
the getter (so the cached container) unchanged; the two calls together issue
exactly one request. -/
theorem GetToken_second_call_from_cache {L : Type} (g : TokenGetter L)
    (nowCheck nowFetch : Time) (post : Request → Except GoError GoString)
    (unmarshal : GoString → Except GoError Token) (c : TokenContainer)
    (t2 nowFetch2 : Time) (post2 : Request → Except GoError GoString)
    (unmarshal2 : GoString → Except GoError Token)
    (hfetch : posts (GetToken g nowCheck nowFetch post unmarshal).events ≠ [])
    (hret : (GetToken g nowCheck nowFetch post unmarshal).ret = (some c, none))
    (ht2 : Time.After t2 c.ExpiresAt = false) :
    (GetToken (GetToken g nowCheck nowFetch post unmarshal).getter t2 nowFetch2 post2
        unmarshal2).ret = (some c, none) ∧
    posts (GetToken (GetToken g nowCheck nowFetch post unmarshal).getter t2 nowFetch2 post2
        unmarshal2).events = [] ∧
    (GetToken (GetToken g nowCheck nowFetch post unmarshal).getter t2 nowFetch2 post2
        unmarshal2).getter = (GetToken g nowCheck nowFetch post unmarshal).getter ∧
    (GetToken (GetToken g nowCheck nowFetch post unmarshal).getter t2 nowFetch2 post2
        unmarshal2).getter.tokenContainer = some c ∧
    (posts ((GetToken g nowCheck nowFetch post unmarshal).events ++
      (GetToken (GetToken g nowCheck nowFetch post unmarshal).getter t2 nowFetch2 post2
        unmarshal2).events)).length = 1 := by
  have hcache := GetToken_ret_cached g nowCheck nowFetch post unmarshal c hret
  have hle : t2 ≤ c.ExpiresAt := by
    unfold Time.After at ht2
    simpa using ht2
  have h2 := GetToken_cached (GetToken g nowCheck nowFetch post unmarshal).getter c t2 nowFetch2
    post2 unmarshal2 hcache hle
  have h1 : posts (GetToken g nowCheck nowFetch post unmarshal).events = [tokenRequest g] := by
    rcases GetToken_posts_cases g nowCheck nowFetch post unmarshal with h | h
    · exact absurd h hfetch
    · exact h
  rw [h2]
  refine ⟨rfl, rfl, rfl, hcache, ?_⟩
  simp [posts_append, h1, posts]

/-- The previous statement on a first call at instants 0 and 1000 that fetches a
token living 300 seconds, and a second call at instant 2000. -/
theorem GetToken_second_call_from_cache_witness :
    (GetToken (GetToken exampleGetter 0 1000 (fun _ => Except.ok [])
        (fun _ => Except.ok (exampleToken (ascii "abcdefgh") 300))).getter 2000 3000
        (fun _ => Except.ok []) (fun _ => Except.ok (exampleToken (ascii "zzzzzzzz") 1))).ret
      = (some ⟨some (exampleToken (ascii "abcdefgh") 300), 300000001000⟩, none) :=
  (GetToken_second_call_from_cache exampleGetter 0 1000 (fun _ => Except.ok [])
    (fun _ => Except.ok (exampleToken (ascii "abcdefgh") 300))
    ⟨some (exampleToken (ascii "abcdefgh") 300), 300000001000⟩ 2000 3000
    (fun _ => Except.ok []) (fun _ => Except.ok (exampleToken (ascii "zzzzzzzz") 1))
    (by decide) (by decide) (by decide)).1

/-- Two calls in succession, stated through the token's lifetime: when the first
call fetches a token whose `expires_in` times 10^9 fits `int64`, and the time
elapsed from the end of that fetch to the second call's clock reading is less
than the lifetime, the second call returns the container of the first and the
two calls together issue exactly one request. -/
theorem GetToken_two_calls_one_fetch_in_range {L : Type} (g : TokenGetter L)
    (nowCheck nowFetch : Time) (post : Request → Except GoError GoString)
    (unmarshal : GoString → Except GoError Token) (respBody : GoString) (token : Token)
    (t2 nowFetch2 : Time) (post2 : Request → Except GoError GoString)
    (unmarshal2 : GoString → Except GoError Token)
    (hneed : ∀ c, g.tokenContainer = some c → c.ExpiresAt < nowCheck)
    (hp : post (tokenRequest g) = Except.ok respBody)
    (hu : unmarshal respBody = Except.ok token)
    (hr : isInt64 (token.ExpiresInSeconds * 1000000000))
    (hlife : t2 - nowFetch < token.ExpiresInSeconds * 1000000000) :
    (GetToken g nowCheck nowFetch post unmarshal).ret =
      (some ⟨some token, nowFetch + token.ExpiresInSeconds * 1000000000⟩, none) ∧
    (GetToken (GetToken g nowCheck nowFetch post unmarshal).getter t2 nowFetch2 post2
        unmarshal2).ret =
      (some ⟨some token, nowFetch + token.ExpiresInSeconds * 1000000000⟩, none) ∧
    (GetToken (GetToken g nowCheck nowFetch post unmarshal).getter t2 nowFetch2 post2
        unmarshal2).getter = (GetToken g nowCheck nowFetch post unmarshal).getter ∧
    posts ((GetToken g nowCheck nowFetch post unmarshal).events ++
      (GetToken (GetToken g nowCheck nowFetch post unmarshal).getter t2 nowFetch2 post2
        unmarshal2).events) = [tokenRequest g] := by
  obtain ⟨h1, h2, -⟩ :=
    GetToken_fetch_ok g nowCheck nowFetch post unmarshal respBody token hneed hp hu
  rw [wrapInt64_of_isInt64 _ hr] at h1 h2
  have hposts := GetToken_fetch_posts g nowCheck nowFetch post unmarshal hneed
  have hle : ∀ x y d : Int, x - y < d → x ≤ y + d := by
    intro x y d h
    omega
  have hcached := GetToken_cached (GetToken g nowCheck nowFetch post unmarshal).getter
    ⟨some token, nowFetch + token.ExpiresInSeconds * 1000000000⟩ t2 nowFetch2 post2 unmarshal2
    (by rw [h2]) (hle _ _ _ hlife)
  rw [hcached]
  refine ⟨h1, rfl, rfl, ?_⟩
  simp [posts_append, hposts, posts]

/-- The previous statement on a token living 300 seconds, fetched at instant 1000,
and a second call one nanosecond later. -/
theorem GetToken_two_calls_one_fetch_in_range_witness :
    posts ((GetToken exampleGetter 0 1000 (fun _ => Except.ok [])
        (fun _ => Except.ok (exampleToken (ascii "abcdefgh") 300))).events ++
      (GetToken (GetToken exampleGetter 0 1000 (fun _ => Except.ok [])
        (fun _ => Except.ok (exampleToken (ascii "abcdefgh") 300))).getter 1001 1002
        (fun _ => Except.ok []) (fun _ => Except.ok (exampleToken (ascii "zzzzzzzz") 1))).events)
      = [tokenRequest exampleGetter] :=
  (GetToken_two_calls_one_fetch_in_range exampleGetter 0 1000 (fun _ => Except.ok [])
    (fun _ => Except.ok (exampleToken (ascii "abcdefgh") 300)) []
    (exampleToken (ascii "abcdefgh") 300) 1001 1002
    (fun _ => Except.ok []) (fun _ => Except.ok (exampleToken (ascii "zzzzzzzz") 1))
    (by intro c hc; cases hc) rfl rfl (by unfold isInt64; decide) (by decide)).2.2.2

/-- C4 (the code at the failing input): `expires_in = 9223372037` is an `int64`
value. A first call whose fetch completes at instant 1000 caches a container
with `ExpiresAt = 1000 - 9223372036709551616`; a second call whose clock reads
1001, one nanosecond later and far inside the token's lifetime of 9223372037
seconds, finds the clock after `ExpiresAt`, issues a second request and replaces
the cached container: the two calls issue two requests. -/
theorem GetToken_two_calls_two_fetches_on_wrap :
    isInt64 9223372037 ∧
    (1001 : Int) - 1000 < 9223372037 * 1000000000 ∧
    (GetToken exampleGetter 0 1000 (fun _ => Except.ok [])
      (fun _ => Except.ok (exampleToken (ascii "abcdefgh") 9223372037))).ret
      = (some ⟨some (exampleToken (ascii "abcdefgh") 9223372037), -9223372036709550616⟩, none) ∧
    Time.After 1001 (-9223372036709550616) = true ∧
    posts (GetToken (GetToken exampleGetter 0 1000 (fun _ => Except.ok [])
        (fun _ => Except.ok (exampleToken (ascii "abcdefgh") 9223372037))).getter 1001 1002
        (fun _ => Except.ok [])
        (fun _ => Except.ok (exampleToken (ascii "zzzzzzzz") 9223372037))).events
      = [tokenRequest exampleGetter] ∧
    (GetToken (GetToken exampleGetter 0 1000 (fun _ => Except.ok [])
        (fun _ => Except.ok (exampleToken (ascii "abcdefgh") 9223372037))).getter 1001 1002
        (fun _ => Except.ok [])
        (fun _ => Except.ok (exampleToken (ascii "zzzzzzzz") 9223372037))).ret
      = (some ⟨some (exampleToken (ascii "zzzzzzzz") 9223372037), -9223372036709550614⟩, none) ∧
    posts ((GetToken exampleGetter 0 1000 (fun _ => Except.ok [])
        (fun _ => Except.ok (exampleToken (ascii "abcdefgh") 9223372037))).events ++
      (GetToken (GetToken exampleGetter 0 1000 (fun _ => Except.ok [])
        (fun _ => Except.ok (exampleToken (ascii "abcdefgh") 9223372037))).getter 1001 1002
        (fun _ => Except.ok [])
        (fun _ => Except.ok (exampleToken (ascii "zzzzzzzz") 9223372037))).events)
      = [tokenRequest exampleGetter, tokenRequest exampleGetter] := by
  refine ⟨by unfold isInt64; decide, by decide, by decide, by decide, by decide, by decide,
    by decide⟩

/-- C5 (as stated, refuted): with a container cached whose `ExpiresAt` is the
instant 100, a call whose clock reads exactly 100 (not strictly before
`ExpiresAt`) returns the cached container and issues no request. -/
theorem GetToken_at_expiry_instant_no_fetch :
    cachedGetter.tokenContainer = some ⟨some (exampleToken (ascii "abcdefgh") 300), 100⟩ ∧
    ¬ ((100 : Time) < 100) ∧
    (GetToken cachedGetter 100 100 (fun _ => Except.ok [])
      (fun _ => Except.ok (exampleToken (ascii "zzzzzzzz") 300))).ret
      = (some ⟨some (exampleToken (ascii "abcdefgh") 300), 100⟩, none) ∧
    posts (GetToken cachedGetter 100 100 (fun _ => Except.ok [])
      (fun _ => Except.ok (exampleToken (ascii "zzzzzzzz") 300))).events = [] := by
  decide

/-- C5 (amended): with a container `c` cached, `GetToken` returns `c` without a
request if and only if the clock reading is not after `c.ExpiresAt`, that is at
or before it; it issues a request if and only if the reading is strictly after
`c.ExpiresAt`. At the instant `c.ExpiresAt` itself the cached container is
returned. -/
theorem GetToken_cached_usable_iff {L : Type} (g : TokenGetter L) (c : TokenContainer)
    (nowCheck nowFetch : Time) (post : Request → Except GoError GoString)
    (unmarshal : GoString → Except GoError Token)
    (hc : g.tokenContainer = some c) :
    (((GetToken g nowCheck nowFetch post unmarshal).ret = (some c, none) ∧
        posts (GetToken g nowCheck nowFetch post unmarshal).events = []) ↔
      nowCheck ≤ c.ExpiresAt) ∧
    (posts (GetToken g nowCheck nowFetch post unmarshal).events = [tokenRequest g] ↔
      c.ExpiresAt < nowCheck) ∧
    (nowCheck = c.ExpiresAt →
      (GetToken g nowCheck nowFetch post unmarshal).ret = (some c, none) ∧
        posts (GetToken g nowCheck nowFetch post unmarshal).events = []) := by
  have hcached : nowCheck ≤ c.ExpiresAt →
      (GetToken g nowCheck nowFetch post unmarshal).ret = (some c, none) ∧
        posts (GetToken g nowCheck nowFetch post unmarshal).events = [] := by
    intro hle
    rw [GetToken_cached g c nowCheck nowFetch post unmarshal hc hle]
    exact ⟨rfl, rfl⟩
  have hfetched : c.ExpiresAt < nowCheck →
      posts (GetToken g nowCheck nowFetch post unmarshal).events = [tokenRequest g] := by
    intro hlt
    apply GetToken_fetch_posts
    intro c0 hc0
    rw [hc] at hc0
    cases hc0
    exact hlt
  refine ⟨⟨?_, hcached⟩, ⟨?_, hfetched⟩, fun h => hcached (le_of_eq h)⟩
  · rintro ⟨-, hp⟩
    by_contra hn
    rw [hfetched (not_le.1 hn)] at hp
    simp at hp
  · intro hp
    by_contra hn
    rw [(hcached (not_lt.1 hn)).2] at hp
    simp at hp

/-- C5 (amended), at the expiry instant of the cached example container. -/
theorem GetToken_cached_usable_iff_witness :
    (GetToken cachedGetter 100 100 (fun _ => Except.ok [])
      (fun _ => Except.ok (exampleToken (ascii "zzzzzzzz") 300))).ret
      = (some ⟨some (exampleToken (ascii "abcdefgh") 300), 100⟩, none) ∧
    posts (GetToken cachedGetter 100 100 (fun _ => Except.ok [])
      (fun _ => Except.ok (exampleToken (ascii "zzzzzzzz") 300))).events = [] :=
  (GetToken_cached_usable_iff cachedGetter ⟨some (exampleToken (ascii "abcdefgh") 300), 100⟩
    100 100 (fun _ => Except.ok []) (fun _ => Except.ok (exampleToken (ascii "zzzzzzzz") 300))
    rfl).2.2 rfl

/-- C6: in every state in which `GetToken` decides to fetch (nothing cached, or
an expired container cached), if the fetch fails, by a transport error or by a
response body that does not decode, `GetToken` returns a nil container together
with that error, and the getter, so the cached container, is exactly what it was
before the call. -/
theorem GetToken_failed_fetch_keeps_cache {L : Type} (g : TokenGetter L)
    (nowCheck nowFetch : Time) (post : Request → Except GoError GoString)
    (unmarshal : GoString → Except GoError Token) (err : GoError)
    (hneed : g.tokenContainer = none ∨
      ∃ c, g.tokenContainer = some c ∧ Time.After nowCheck c.ExpiresAt = true)
    (hfail : post (tokenRequest g) = Except.error err ∨
      ∃ respBody, post (tokenRequest g) = Except.ok respBody ∧
        unmarshal respBody = Except.error err) :
    (GetToken g nowCheck nowFetch post unmarshal).ret = (none, some err) ∧
    (GetToken g nowCheck nowFetch post unmarshal).getter = g ∧
    (GetToken g nowCheck nowFetch post unmarshal).getter.tokenContainer = g.tokenContainer := by
  have hneed1 : ∀ c, g.tokenContainer = some c → c.ExpiresAt < nowCheck := by
    intro c hc
    rcases hneed with hn | ⟨c0, hc0, ha⟩
    · rw [hn] at hc; cases hc
    · rw [hc0] at hc
      cases hc
      unfold Time.After at ha
      simpa using ha
  obtain ⟨h1, h2⟩ := GetToken_fetch_failed g nowCheck nowFetch post unmarshal err hneed1 hfail
  exact ⟨h1, h2, by rw [h2]⟩

/-- C6, on the expired example container (clock at 101, expiry at 100) and a
response body that does not decode. -/
theorem GetToken_failed_fetch_keeps_cache_witness :
    (GetToken cachedGetter 101 102 (fun _ => Except.ok (ascii "not json"))
      (fun _ => Except.error ⟨ascii "invalid character"⟩)).ret
      = (none, some ⟨ascii "invalid character"⟩) ∧
    (GetToken cachedGetter 101 102 (fun _ => Except.ok (ascii "not json"))
      (fun _ => Except.error ⟨ascii "invalid character"⟩)).getter = cachedGetter ∧
    (GetToken cachedGetter 101 102 (fun _ => Except.ok (ascii "not json"))
      (fun _ => Except.error ⟨ascii "invalid character"⟩)).getter.tokenContainer
      = cachedGetter.tokenContainer :=
  GetToken_failed_fetch_keeps_cache cachedGetter 101 102 (fun _ => Except.ok (ascii "not json"))
    (fun _ => Except.error ⟨ascii "invalid character"⟩) ⟨ascii "invalid character"⟩
    (Or.inr ⟨⟨some (exampleToken (ascii "abcdefgh") 300), 100⟩, rfl, by decide⟩)
    (Or.inr ⟨ascii "not json", rfl, rfl⟩)

/-- While `expires_in` times 10^9 fits `int64`, the cached `ExpiresAt` is the
fetch-completion instant plus that many seconds. -/
theorem GetToken_ExpiresAt_in_range {L : Type} (g : TokenGetter L)
    (nowCheck nowFetch : Time) (post : Request → Except GoError GoString)
    (unmarshal : GoString → Except GoError Token) (respBody : GoString) (token : Token)
    (hneed : ∀ c, g.tokenContainer = some c → c.ExpiresAt < nowCheck)
    (hp : post (tokenRequest g) = Except.ok respBody)
    (hu : unmarshal respBody = Except.ok token)
    (hr : isInt64 (token.ExpiresInSeconds * 1000000000)) :
    (GetToken g nowCheck nowFetch post unmarshal).getter.tokenContainer =
      some ⟨some token, nowFetch + token.ExpiresInSeconds * 1000000000⟩ := by
  rw [(GetToken_fetch_ok g nowCheck nowFetch post unmarshal respBody token hneed hp hu).2.1,
    wrapInt64_of_isInt64 _ hr]

/-- C7 (the code at the failing input): `expires_in = 9223372037` is an `int64`
value, and a successful fetch completing at any instant `t` (in nanoseconds)
caches `ExpiresAt = t - 9223372036709551616`, which lies before `t` and is not
`t` plus 9223372037 seconds. -/
theorem GetToken_ExpiresAt_wraps (t : Time) :
    isInt64 9223372037 ∧
    (GetToken exampleGetter 0 t (fun _ => Except.ok [])
      (fun _ => Except.ok (exampleToken (ascii "abcdefgh") 9223372037))).getter.tokenContainer
      = some ⟨some (exampleToken (ascii "abcdefgh") 9223372037), t - 9223372036709551616⟩ ∧
    t - 9223372036709551616 < t ∧
    t - 9223372036709551616 ≠ t + 9223372037 * 1000000000 := by
  have key : ∀ x : Int, x - 9223372036709551616 < x ∧
      x - 9223372036709551616 ≠ x + 9223372037 * 1000000000 := by
    intro x
    constructor <;> omega
  refine ⟨by unfold isInt64; decide, ?_, (key t).1, (key t).2⟩
  rw [(GetToken_fetch_ok exampleGetter 0 t (fun _ => Except.ok [])
    (fun _ => Except.ok (exampleToken (ascii "abcdefgh") 9223372037)) []
    (exampleToken (ascii "abcdefgh") 9223372037) (by intro c hc; cases hc) rfl rfl).2.1]
  have hw : wrapInt64 ((exampleToken (ascii "abcdefgh") 9223372037).ExpiresInSeconds * 1000000000)
      = -9223372036709551616 := by decide
  rw [hw]
  rfl

/-- C8 (as stated, refuted): for the access token `"abc"` the token copy handed
to the trace log carries the access token `"abc"`, the full token. -/
theorem GetToken_logs_short_token_in_full :
    logArgs (GetToken exampleGetter 0 0 (fun _ => Except.ok [])
      (fun _ => Except.ok (exampleToken (ascii "abc") 300))).events
      = [LogArg.token (exampleToken (ascii "abc") 300), LogArg.time 300000000000] ∧
    (exampleToken (ascii "abc") 300).AccessToken = ascii "abc" := by
  decide

/-- C8 (amended): for every successfully decoded token response with access token
`a`, the values handed to the loggers are the token copy whose access token is
the first `min 5 (len a)` bytes of `a`, and the expiry instant. The logged access
token has length at most 5, is a leading part of `a`, and equals the full `a`
exactly when `a` has at most 5 bytes. The cached and returned token keeps the
full `a`. -/
theorem GetToken_logged_token_truncated {L : Type} (g : TokenGetter L)
    (nowCheck nowFetch : Time) (post : Request → Except GoError GoString)
    (unmarshal : GoString → Except GoError Token) (respBody : GoString) (token : Token)
    (hneed : g.tokenContainer = none ∨
      ∃ c, g.tokenContainer = some c ∧ Time.After nowCheck c.ExpiresAt = true)
    (hp : post (tokenRequest g) = Except.ok respBody)
    (hu : unmarshal respBody = Except.ok token) :
    (∃ expiresAt,
      logArgs (GetToken g nowCheck nowFetch post unmarshal).events =
        [LogArg.token { token with AccessToken := token.AccessToken.take 5 },
          LogArg.time expiresAt] ∧
      (GetToken g nowCheck nowFetch post unmarshal).getter.tokenContainer =
        some ⟨some token, expiresAt⟩ ∧
      (GetToken g nowCheck nowFetch post unmarshal).ret = (some ⟨some token, expiresAt⟩, none)) ∧
    (token.AccessToken.take 5).length = min 5 token.AccessToken.length ∧
    (token.AccessToken.take 5).length ≤ 5 ∧
    token.AccessToken.take 5 <+: token.AccessToken ∧
    (token.AccessToken.take 5 = token.AccessToken ↔ token.AccessToken.length ≤ 5) := by
  have hneed1 : ∀ c, g.tokenContainer = some c → c.ExpiresAt < nowCheck := by
    intro c hc
    rcases hneed with hn | ⟨c0, hc0, ha⟩
    · rw [hn] at hc; cases hc
    · rw [hc0] at hc
      cases hc
      unfold Time.After at ha
      simpa using ha
  obtain ⟨h1, h2, h3⟩ :=
    GetToken_fetch_ok g nowCheck nowFetch post unmarshal respBody token hneed1 hp hu
  have htt : tokenTrace token = { token with AccessToken := token.AccessToken.take 5 } := by
    unfold tokenTrace
    simp only [tokenTruncateLengthForLog]
    split_ifs with h
    · rfl
    · rw [List.take_of_length_le (by omega)]
  refine ⟨⟨_, ?_, ?_, h1⟩, ?_, ?_, List.take_prefix 5 token.AccessToken, ?_⟩
  · rw [h3, htt]
  · rw [h2]
  · simp [List.length_take]
  · simp [List.length_take]
  · constructor
    · intro h
      have := congrArg List.length h
      simp only [List.length_take] at this
      omega
    · intro h
      exact List.take_of_length_le h

/-- C8 (amended), on an eight-byte access token: the log receives `"abcde"`. -/
theorem GetToken_logged_token_truncated_witness :
    ∃ expiresAt,
      logArgs (GetToken exampleGetter 0 0 (fun _ => Except.ok [])
        (fun _ => Except.ok (exampleToken (ascii "abcdefgh") 300))).events =
        [LogArg.token { exampleToken (ascii "abcdefgh") 300 with
            AccessToken := (exampleToken (ascii "abcdefgh") 300).AccessToken.take 5 },
          LogArg.time expiresAt] ∧
      (GetToken exampleGetter 0 0 (fun _ => Except.ok [])
        (fun _ => Except.ok (exampleToken (ascii "abcdefgh") 300))).getter.tokenContainer =
        some ⟨some (exampleToken (ascii "abcdefgh") 300), expiresAt⟩ ∧
      (GetToken exampleGetter 0 0 (fun _ => Except.ok [])
        (fun _ => Except.ok (exampleToken (ascii "abcdefgh") 300))).ret =
        (some ⟨some (exampleToken (ascii "abcdefgh") 300), expiresAt⟩, none) :=
  (GetToken_logged_token_truncated exampleGetter 0 0 (fun _ => Except.ok [])
    (fun _ => Except.ok (exampleToken (ascii "abcdefgh") 300)) []
    (exampleToken (ascii "abcdefgh") 300) (Or.inl rfl) rfl rfl).1

end Ginkeycloak
